import Mathlib

/-!
Verification of the Indicator & Advice Engine of `src/app.py`.

The numeric model: pandas float values are embedded as `FV`, a rational
number extended with `nan`, `pinf` and `ninf`, with arithmetic and
comparisons following IEEE semantics on those cases (every comparison
against `nan` is false; division of a positive number by zero is `pinf`;
division of zero by zero is `nan`). Every finite double is a rational
number, so `ℚ` is a faithful carrier for the finite values.

Series are `List ℚ` of closing prices; rolling quantities are indexed
functions of the list, mirroring the pandas expressions at
`src/app.py` lines 99 to 106 (`delta`, `gain`, `loss`, `rsi_series`,
`ma20`, `std20`, `upper_s`, `lower_s`), with `rolling(w)` undefined
(nan / none) before index `w - 1` as in pandas with the default
`min_periods`.
-/

namespace StockApp

/-- Embedded float value: rational, or one of the IEEE special values
that the pipeline can produce. -/
inductive FV where
  | nan : FV
  | pinf : FV
  | ninf : FV
  | fin : ℚ → FV
deriving DecidableEq, Repr

/-- IEEE addition on embedded values. -/
def fvAdd : FV → FV → FV
  | .nan, _ => .nan
  | _, .nan => .nan
  | .pinf, .ninf => .nan
  | .ninf, .pinf => .nan
  | .pinf, _ => .pinf
  | _, .pinf => .pinf
  | .ninf, _ => .ninf
  | _, .ninf => .ninf
  | .fin a, .fin b => .fin (a + b)

/-- IEEE subtraction on embedded values. -/
def fvSub : FV → FV → FV
  | .nan, _ => .nan
  | _, .nan => .nan
  | .pinf, .pinf => .nan
  | .ninf, .ninf => .nan
  | .pinf, _ => .pinf
  | .ninf, _ => .ninf
  | _, .pinf => .ninf
  | _, .ninf => .pinf
  | .fin a, .fin b => .fin (a - b)

/-- IEEE division on embedded values; zero is unsigned as in the
pipeline, so a positive number divided by zero is `pinf` and zero
divided by zero is `nan`. -/
def fvDiv : FV → FV → FV
  | .nan, _ => .nan
  | _, .nan => .nan
  | .pinf, .pinf => .nan
  | .pinf, .ninf => .nan
  | .ninf, .pinf => .nan
  | .ninf, .ninf => .nan
  | .pinf, .fin b => if b < 0 then .ninf else .pinf
  | .ninf, .fin b => if b < 0 then .pinf else .ninf
  | .fin _, .pinf => .fin 0
  | .fin _, .ninf => .fin 0
  | .fin a, .fin b =>
      if b = 0 then (if a = 0 then .nan else if a < 0 then .ninf else .pinf)
      else .fin (a / b)

/-- IEEE `>=` as a boolean: any comparison with `nan` is false. -/
def fvGe : FV → FV → Bool
  | .nan, _ => false
  | _, .nan => false
  | .pinf, _ => true
  | _, .pinf => false
  | _, .ninf => true
  | .ninf, _ => false
  | .fin a, .fin b => decide (b ≤ a)

/-- IEEE `<=` as a boolean: any comparison with `nan` is false. -/
def fvLe : FV → FV → Bool
  | .nan, _ => false
  | _, .nan => false
  | .ninf, _ => true
  | _, .ninf => false
  | _, .pinf => true
  | .pinf, _ => false
  | .fin a, .fin b => decide (a ≤ b)

/-- The three advice categories of `get_advice` (`src/app.py` lines 65
to 70): the sell-consideration branch (overbought), the
buy-consideration branch (oversold), and the wait-and-see branch
(neutral). -/
inductive Advice where
  | overbought : Advice
  | oversold : Advice
  | neutral : Advice
deriving DecidableEq, Repr

/-- The advice classifier, `src/app.py` lines 65 to 70:
first `rsi >= 70 or current_price >= upper`, then
`rsi <= 30 or current_price <= lower`, else neutral. -/
def get_advice (current_price rsi upper lower : FV) : Advice :=
  if fvGe rsi (.fin 70) || fvGe current_price upper then .overbought
  else if fvLe rsi (.fin 30) || fvLe current_price lower then .oversold
  else .neutral

/-- A target rule direction: the code keys on the configured type
string, buy (購入) or sell (売却). -/
inductive TargetType where
  | buy : TargetType
  | sell : TargetType
deriving DecidableEq, Repr

/-- Target achievement, `src/app.py` line 116:
`(current_price <= target_price) if target_type == 購入 else
(current_price >= target_price)`. -/
def is_achieved (current_price target_price : ℚ) (target_type : TargetType) : Bool :=
  if target_type = TargetType.buy then decide (current_price ≤ target_price)
  else decide (target_price ≤ current_price)

/-- Signed distance to the target, `src/app.py` line 121. -/
def t_diff (current_price target_price : ℚ) : ℚ :=
  current_price - target_price

/-- Percentage distance to the target, `src/app.py` line 122. -/
def t_pct (current_price target_price : ℚ) : ℚ :=
  t_diff current_price target_price / target_price * 100

/-- Closing price at index `i` of the series (0 outside the series;
every theorem about a series point carries the in-range bound). -/
def price (xs : List ℚ) (i : ℕ) : ℚ := xs.getD i 0

/-- The successive difference `delta = close_full.diff()`
(`src/app.py` line 100): `nan` at index 0. -/
def deltaAt (xs : List ℚ) (i : ℕ) : FV :=
  if i = 0 then .nan else .fin (price xs i - price xs (i - 1))

/-- Pointwise gain `delta.where(delta > 0, 0)` (`src/app.py` line 101):
a comparison against `nan` is false, so the leading `nan` difference
becomes 0, and so does every non-positive difference. -/
def gainTerm (xs : List ℚ) (i : ℕ) : ℚ :=
  match deltaAt xs i with
  | .fin d => if 0 < d then d else 0
  | _ => 0

/-- Pointwise loss `-delta.where(delta < 0, 0)` (`src/app.py` line
102): the magnitude of a negative difference, else 0. -/
def lossTerm (xs : List ℚ) (i : ℕ) : ℚ :=
  match deltaAt xs i with
  | .fin d => if d < 0 then -d else 0
  | _ => 0

/-- Sum of `f` over the trailing window of width `w` ending at index
`i` (positions `i + 1 - w` to `i`). -/
def winSum (f : ℕ → ℚ) (w i : ℕ) : ℚ :=
  ∑ j ∈ Finset.range w, f (i + 1 - w + j)

/-- pandas `rolling(w).mean()` over a series with no missing values:
`nan` until the window fills at index `w - 1`. -/
def rollMean (f : ℕ → ℚ) (w i : ℕ) : FV :=
  if w ≤ i + 1 then .fin (winSum f w i / w) else .nan

/-- `gain = (delta.where(delta > 0, 0)).rolling(14).mean()`
(`src/app.py` line 101). -/
def gainAvg (xs : List ℚ) (i : ℕ) : FV := rollMean (gainTerm xs) 14 i

/-- `loss = (-delta.where(delta < 0, 0)).rolling(14).mean()`
(`src/app.py` line 102). -/
def lossAvg (xs : List ℚ) (i : ℕ) : FV := rollMean (lossTerm xs) 14 i

/-- `rsi_series = 100 - (100 / (1 + (gain / loss)))`
(`src/app.py` line 103), with IEEE propagation of `nan` and infinity. -/
def rsiAt (xs : List ℚ) (i : ℕ) : FV :=
  fvSub (.fin 100)
    (fvDiv (.fin 100) (fvAdd (.fin 1) (fvDiv (gainAvg xs i) (lossAvg xs i))))

/-- `ma20 = close_full.rolling(20).mean()` (`src/app.py` line 104):
`none` until the 20-window fills. -/
def ma20At (xs : List ℚ) (i : ℕ) : Option ℚ :=
  if 20 ≤ i + 1 then some (winSum (price xs) 20 i / 20) else none

/-- The rolling sample variance under `std20 = close_full.rolling(20).std()`
(`src/app.py` line 105): pandas computes the variance with the default
`ddof = 1` from the running sums of the window, here the sum of squares
minus the window length times the squared mean, over `20 - 1`. -/
def var20At (xs : List ℚ) (i : ℕ) : Option ℚ :=
  if 20 ≤ i + 1 then
    some ((winSum (fun j => price xs j ^ 2) 20 i
        - 20 * (winSum (price xs) 20 i / 20) ^ 2) / 19)
  else none

/-- `std20 = close_full.rolling(20).std()` (`src/app.py` line 105):
the square root of the rolling sample variance. `Real.sqrt` makes this
and the two bands noncomputable in Lean; all other definitions stay
executable. -/
noncomputable def std20At (xs : List ℚ) (i : ℕ) : Option ℝ :=
  match var20At xs i with
  | some v => some (Real.sqrt ((v : ℚ) : ℝ))
  | none => none

/-- `upper_s = ma20 + (std20 * 2)` (`src/app.py` line 106). -/
noncomputable def upperAt (xs : List ℚ) (i : ℕ) : Option ℝ :=
  match ma20At xs i, std20At xs i with
  | some m, some s => some ((m : ℝ) + s * 2)
  | _, _ => none

/-- `lower_s = ma20 - (std20 * 2)` (`src/app.py` line 106). -/
noncomputable def lowerAt (xs : List ℚ) (i : ℕ) : Option ℝ :=
  match ma20At xs i, std20At xs i with
  | some m, some s => some ((m : ℝ) - s * 2)
  | _, _ => none

/-- A concrete 20-point series used as a test input: nineteen zeros
followed by a 20, whose 20-window has mean 1, sample variance 20 and
population variance 19. -/
def sampleSeries : List ℚ :=
  [0, 0, 0, 0, 0, 0, 0, 0, 0, 0, 0, 0, 0, 0, 0, 0, 0, 0, 0, 20]

/-- Outcome of one ticker of the batch loop (`src/app.py` lines 73 to
160): skipped with a warning (fetch returned nothing), an error surfaced
inside the expander, or a finished analysis. -/
inductive Outcome (A : Type) where
  | skipped : Outcome A
  | errored (msg : String) : Outcome A
  | done (a : A) : Outcome A

/-- One iteration of the batch loop: `if df is None or df.empty:`
warn and `continue` (`src/app.py` lines 80 to 82), else run the
analysis body under `try`, turning an exception into a per-ticker
error message (`src/app.py` lines 85 and 159 to 160). The analysis
body is the parameter `compute`. -/
def processTicker {A : Type} (compute : List ℚ → Except String A)
    (fetch : Option (List ℚ)) : Outcome A :=
  match fetch with
  | none => .skipped
  | some df =>
      if df.isEmpty then .skipped
      else
        match compute df with
        | .ok a => .done a
        | .error e => .errored e

/-- The batch loop `for ticker, info in TICKERS_CONFIG.items():`
(`src/app.py` line 73): every ticker is processed in turn. -/
def processBatch {A : Type} (compute : List ℚ → Except String A)
    (fetches : List (Option (List ℚ))) : List (Outcome A) :=
  fetches.map (processTicker compute)

/-! ## Helper lemmas -/

/-- The classifier on finite inputs, written as nested conditionals on
the rational comparisons. -/
theorem get_advice_fin (p r u l : ℚ) :
    get_advice (.fin p) (.fin r) (.fin u) (.fin l) =
      if 70 ≤ r ∨ u ≤ p then .overbought
      else if r ≤ 30 ∨ p ≤ l then .oversold
      else .neutral := by
  simp only [get_advice, fvGe, fvLe, Bool.or_eq_true, decide_eq_true_eq]

/-- Pointwise gains are nonnegative. -/
theorem gainTerm_nonneg (xs : List ℚ) (i : ℕ) : 0 ≤ gainTerm xs i := by
  unfold gainTerm
  rcases deltaAt xs i with _ | _ | _ | d <;> simp
  split_ifs with h
  · exact h.le
  · exact le_rfl

/-- Pointwise losses are nonnegative. -/
theorem lossTerm_nonneg (xs : List ℚ) (i : ℕ) : 0 ≤ lossTerm xs i := by
  unfold lossTerm
  rcases deltaAt xs i with _ | _ | _ | d <;> simp
  split_ifs with h
  · linarith
  · exact le_rfl

/-- A window sum of a nonnegative series is nonnegative. -/
theorem winSum_nonneg (f : ℕ → ℚ) (w i : ℕ) (h : ∀ j, 0 ≤ f j) :
    0 ≤ winSum f w i :=
  Finset.sum_nonneg fun j _ => h _

/-- The RSI formula on finite nonnegative averages: division of zero
by zero propagates `nan`, a positive gain over zero loss saturates at
100, and otherwise the textbook value results. -/
theorem fv_rsi_core (G L : ℚ) (hG : 0 ≤ G) (hL : 0 ≤ L) :
    fvSub (.fin 100) (fvDiv (.fin 100) (fvAdd (.fin 1) (fvDiv (.fin G) (.fin L)))) =
      if L = 0 then (if G = 0 then FV.nan else .fin 100)
      else .fin (100 - 100 / (1 + G / L)) := by
  by_cases hL0 : L = 0
  · subst hL0
    by_cases hG0 : G = 0
    · subst hG0
      simp [fvDiv, fvAdd, fvSub]
    · have hGpos : ¬ G < 0 := not_lt.mpr hG
      simp only [fvDiv, if_pos rfl, if_neg hG0, if_neg hGpos, fvAdd, fvSub]
      norm_num
  · have hLpos : 0 < L := lt_of_le_of_ne hL (Ne.symm hL0)
    have hq : 0 ≤ G / L := div_nonneg hG hL
    have hden : (1 : ℚ) + G / L ≠ 0 := by positivity
    simp only [fvDiv, if_neg hL0, fvAdd, if_neg hden, fvSub]

/-- Before index 13 the rolling window is not filled and the RSI is
`nan`. -/
theorem rsiAt_lt13 (xs : List ℚ) (i : ℕ) (h : i < 13) : rsiAt xs i = .nan := by
  have h14 : ¬ (14 ≤ i + 1) := by omega
  simp [rsiAt, gainAvg, lossAvg, rollMean, h14, fvDiv, fvAdd, fvSub]

/-- From index 13 on, the RSI is determined by the window sums of the
pointwise gains and losses. -/
theorem rsiAt_of_sums (xs : List ℚ) (i : ℕ) (h : 13 ≤ i) :
    rsiAt xs i =
      if winSum (lossTerm xs) 14 i = 0 then
        (if winSum (gainTerm xs) 14 i = 0 then FV.nan else .fin 100)
      else .fin (100 - 100 /
        (1 + (winSum (gainTerm xs) 14 i / 14) / (winSum (lossTerm xs) 14 i / 14))) := by
  have h14 : 14 ≤ i + 1 := by omega
  have hG := winSum_nonneg (gainTerm xs) 14 i (gainTerm_nonneg xs)
  have hL := winSum_nonneg (lossTerm xs) 14 i (lossTerm_nonneg xs)
  simp only [rsiAt, gainAvg, lossAvg, rollMean, if_pos h14]
  rw [fv_rsi_core _ _ (div_nonneg hG (by norm_num)) (div_nonneg hL (by norm_num))]
  by_cases hL0 : winSum (lossTerm xs) 14 i = 0 <;>
    by_cases hG0 : winSum (gainTerm xs) 14 i = 0 <;>
      simp [hL0, hG0, div_eq_zero_iff, Nat.cast_ofNat]

/-- Price of a constant series inside the series. -/
theorem price_replicate (n : ℕ) (c : ℚ) (j : ℕ) (h : j < n) :
    price (List.replicate n c) j = c := by
  simp [price, List.getD_eq_getElem?_getD, List.getElem?_replicate, h]

/-- On a constant series every pointwise gain is zero. -/
theorem gainTerm_replicate (n : ℕ) (c : ℚ) (j : ℕ) (h : j < n) :
    gainTerm (List.replicate n c) j = 0 := by
  rcases Nat.eq_zero_or_pos j with rfl | hj
  · simp [gainTerm, deltaAt]
  · have hj0 : j ≠ 0 := Nat.pos_iff_ne_zero.mp hj
    have hj1 : j - 1 < n := by omega
    simp [gainTerm, deltaAt, hj0, price_replicate n c j h, price_replicate n c (j - 1) hj1]

/-- On a constant series every pointwise loss is zero. -/
theorem lossTerm_replicate (n : ℕ) (c : ℚ) (j : ℕ) (h : j < n) :
    lossTerm (List.replicate n c) j = 0 := by
  rcases Nat.eq_zero_or_pos j with rfl | hj
  · simp [lossTerm, deltaAt]
  · have hj0 : j ≠ 0 := Nat.pos_iff_ne_zero.mp hj
    have hj1 : j - 1 < n := by omega
    simp [lossTerm, deltaAt, hj0, price_replicate n c j h, price_replicate n c (j - 1) hj1]

/-- The 14-window gain sum of a constant series vanishes. -/
theorem winSum_gain_replicate (n : ℕ) (c : ℚ) (i : ℕ) (h13 : 13 ≤ i) (hi : i < n) :
    winSum (gainTerm (List.replicate n c)) 14 i = 0 :=
  Finset.sum_eq_zero fun j hj => by
    have hj14 := Finset.mem_range.mp hj
    exact gainTerm_replicate n c _ (by omega)

/-- The 14-window loss sum of a constant series vanishes. -/
theorem winSum_loss_replicate (n : ℕ) (c : ℚ) (i : ℕ) (h13 : 13 ≤ i) (hi : i < n) :
    winSum (lossTerm (List.replicate n c)) 14 i = 0 :=
  Finset.sum_eq_zero fun j hj => by
    have hj14 := Finset.mem_range.mp hj
    exact lossTerm_replicate n c _ (by omega)

/-- Prices of a dropped series are prices of the full series shifted
by the dropped length. -/
theorem price_drop (xs : List ℚ) (d j : ℕ) :
    price (xs.drop d) j = price xs (d + j) := by
  simp [price, List.getD_eq_getElem?_getD, List.getElem?_drop]

/-- Differences of a dropped series agree with the full series away
from the cut point. -/
theorem deltaAt_drop (xs : List ℚ) (d j : ℕ) (hj : j ≠ 0) :
    deltaAt (xs.drop d) j = deltaAt xs (d + j) := by
  have h1 : d + j ≠ 0 := by omega
  have h2 : d + (j - 1) = d + j - 1 := by omega
  simp [deltaAt, hj, h1, price_drop, h2]

/-- Pointwise gains of a dropped series agree away from the cut point. -/
theorem gainTerm_drop (xs : List ℚ) (d j : ℕ) (hj : j ≠ 0) :
    gainTerm (xs.drop d) j = gainTerm xs (d + j) := by
  unfold gainTerm
  rw [deltaAt_drop xs d j hj]

/-- Pointwise losses of a dropped series agree away from the cut point. -/
theorem lossTerm_drop (xs : List ℚ) (d j : ℕ) (hj : j ≠ 0) :
    lossTerm (xs.drop d) j = lossTerm xs (d + j) := by
  unfold lossTerm
  rw [deltaAt_drop xs d j hj]

/-- On a strictly increasing series every pointwise loss is zero. -/
theorem lossTerm_inc (xs : List ℚ)
    (hmono : ∀ j, j + 1 < xs.length → price xs j < price xs (j + 1))
    (pos : ℕ) (hpos : pos < xs.length) : lossTerm xs pos = 0 := by
  rcases Nat.eq_zero_or_pos pos with rfl | hp
  · simp [lossTerm, deltaAt]
  · have hp0 : pos ≠ 0 := Nat.pos_iff_ne_zero.mp hp
    have hlt : price xs (pos - 1) < price xs pos := by
      have h := hmono (pos - 1) (by omega)
      rwa [Nat.sub_add_cancel hp] at h
    have hd : ¬ (price xs pos - price xs (pos - 1) < 0) := by linarith
    simp [lossTerm, deltaAt, hp0, hd]

/-- On a strictly increasing series every pointwise gain away from the
first index is positive. -/
theorem gainTerm_inc_pos (xs : List ℚ)
    (hmono : ∀ j, j + 1 < xs.length → price xs j < price xs (j + 1))
    (pos : ℕ) (hp0 : pos ≠ 0) (hpos : pos < xs.length) : 0 < gainTerm xs pos := by
  have hp : 0 < pos := Nat.pos_of_ne_zero hp0
  have hlt : price xs (pos - 1) < price xs pos := by
    have h := hmono (pos - 1) (by omega)
    rwa [Nat.sub_add_cancel hp] at h
  have hd : 0 < price xs pos - price xs (pos - 1) := by linarith
  have hdelta : deltaAt xs pos = .fin (price xs pos - price xs (pos - 1)) := by
    simp [deltaAt, hp0]
  simpa [gainTerm, hdelta, hd] using hd

/-- On a strictly decreasing series every pointwise gain is zero. -/
theorem gainTerm_dec (xs : List ℚ)
    (hmono : ∀ j, j + 1 < xs.length → price xs (j + 1) < price xs j)
    (pos : ℕ) (hpos : pos < xs.length) : gainTerm xs pos = 0 := by
  rcases Nat.eq_zero_or_pos pos with rfl | hp
  · simp [gainTerm, deltaAt]
  · have hp0 : pos ≠ 0 := Nat.pos_iff_ne_zero.mp hp
    have hlt : price xs pos < price xs (pos - 1) := by
      have h := hmono (pos - 1) (by omega)
      rwa [Nat.sub_add_cancel hp] at h
    have hd : ¬ (0 < price xs pos - price xs (pos - 1)) := by linarith
    simp [gainTerm, deltaAt, hp0, hd]

/-- On a strictly decreasing series every pointwise loss away from the
first index is positive. -/
theorem lossTerm_dec_pos (xs : List ℚ)
    (hmono : ∀ j, j + 1 < xs.length → price xs (j + 1) < price xs j)
    (pos : ℕ) (hp0 : pos ≠ 0) (hpos : pos < xs.length) : 0 < lossTerm xs pos := by
  have hp : 0 < pos := Nat.pos_of_ne_zero hp0
  have hlt : price xs pos < price xs (pos - 1) := by
    have h := hmono (pos - 1) (by omega)
    rwa [Nat.sub_add_cancel hp] at h
  have hd : price xs pos - price xs (pos - 1) < 0 := by linarith
  have hpos2 : 0 < -(price xs pos - price xs (pos - 1)) := by linarith
  have hdelta : deltaAt xs pos = .fin (price xs pos - price xs (pos - 1)) := by
    simp [deltaAt, hp0]
  simpa [lossTerm, hdelta, hd] using hpos2

/-- A sum of squared deviations expanded: the binomial identity used
by the sample-variance computation. -/
theorem sum_sq_dev (s : Finset ℕ) (f : ℕ → ℚ) (m : ℚ) :
    ∑ j ∈ s, (f j - m) ^ 2
      = ∑ j ∈ s, f j ^ 2 - 2 * m * ∑ j ∈ s, f j + (s.card : ℚ) * m ^ 2 := by
  have h : ∀ j ∈ s, (f j - m) ^ 2 = f j ^ 2 - 2 * m * f j + m ^ 2 :=
    fun j _ => by ring
  rw [Finset.sum_congr rfl h, Finset.sum_add_distrib, Finset.sum_sub_distrib,
    ← Finset.mul_sum, Finset.sum_const, nsmul_eq_mul]

/-! ## Claims about the advice classifier and the target evaluator -/

/-- Claim C1: the classifier evaluates its rules in order with first
match winning: the result is overbought exactly when `rsi ≥ 70` or
`price ≥ upperBand`; otherwise oversold exactly when `rsi ≤ 30` or
`price ≤ lowerBand`; otherwise neutral — the three outcomes are
mutually exclusive — and boundary values (rsi exactly 70 or 30, price
exactly on a band) resolve to the overbought or oversold branch, never
to neutral. -/
theorem get_advice_rule_order (p r u l : ℚ) :
    (get_advice (.fin p) (.fin r) (.fin u) (.fin l) = .overbought ↔ 70 ≤ r ∨ u ≤ p)
  ∧ (get_advice (.fin p) (.fin r) (.fin u) (.fin l) = .oversold ↔
      ¬(70 ≤ r ∨ u ≤ p) ∧ (r ≤ 30 ∨ p ≤ l))
  ∧ (get_advice (.fin p) (.fin r) (.fin u) (.fin l) = .neutral ↔
      ¬(70 ≤ r ∨ u ≤ p) ∧ ¬(r ≤ 30 ∨ p ≤ l))
  ∧ get_advice (.fin p) (.fin 70) (.fin u) (.fin l) = .overbought
  ∧ get_advice (.fin u) (.fin r) (.fin u) (.fin l) = .overbought
  ∧ get_advice (.fin p) (.fin 30) (.fin u) (.fin l) ≠ .neutral
  ∧ get_advice (.fin l) (.fin r) (.fin u) (.fin l) ≠ .neutral := by
  refine ⟨?_, ?_, ?_, ?_, ?_, ?_, ?_⟩ <;>
    rw [get_advice_fin] <;> split_ifs <;> simp_all

/-- Claim C8: the classifier is a pure, deterministic function of its
four inputs: two evaluations at equal inputs (including the special
values) give equal categories. -/
theorem get_advice_deterministic (p r u l q s v w : FV)
    (hp : p = q) (hr : r = s) (hu : u = v) (hw : l = w) :
    get_advice p r u l = get_advice q s v w := by
  rw [hp, hr, hu, hw]

/-- Witness for C8 at a concrete input. -/
theorem get_advice_deterministic_wit :
    get_advice (.fin 50) (.fin 80) (.fin 60) (.fin 40)
      = get_advice (.fin 50) (.fin 80) (.fin 60) (.fin 40) :=
  get_advice_deterministic (.fin 50) (.fin 80) (.fin 60) (.fin 40)
    (.fin 50) (.fin 80) (.fin 60) (.fin 40) rfl rfl rfl rfl

/-- Claim C3: target achievement is inclusive at equality — achieved
exactly when the direction is buy and `price ≤ threshold`, or the
direction is sell and `price ≥ threshold` — so price 100 against
threshold 100 is achieved in both directions, and the evaluator
reports the signed distance `price − threshold` and the percentage
distance `(price − threshold) / threshold × 100`. -/
theorem is_achieved_inclusive (p t : ℚ) (d : TargetType) :
    (is_achieved p t d = true ↔ (d = .buy ∧ p ≤ t) ∨ (d = .sell ∧ t ≤ p))
  ∧ t_diff p t = p - t
  ∧ t_pct p t = (p - t) / t * 100
  ∧ is_achieved 100 100 .buy = true
  ∧ is_achieved 100 100 .sell = true := by
  refine ⟨?_, rfl, rfl, by norm_num [is_achieved], by norm_num [is_achieved]⟩
  cases d <;> simp [is_achieved]

/-! ## Claims about the batch loop -/

/-- Claim C7: in the per-ticker batch loop, a missing or empty fetch
result makes only that ticker skipped, a compute error is surfaced for
that ticker only, every ticker of the batch gets exactly one outcome,
and replacing one ticker's fetch result never changes any other
ticker's outcome. -/
theorem batch_isolates_failures {A : Type}
    (compute : List ℚ → Except String A) (fetches : List (Option (List ℚ))) :
    (processBatch compute fetches).length = fetches.length
  ∧ (∀ i, i < fetches.length →
      (processBatch compute fetches).getD i .skipped
        = processTicker compute (fetches.getD i none))
  ∧ (∀ i, i < fetches.length → fetches.getD i none = none →
      (processBatch compute fetches).getD i .skipped = .skipped)
  ∧ (∀ i df, i < fetches.length → fetches.getD i none = some df → df.isEmpty →
      (processBatch compute fetches).getD i .skipped = .skipped)
  ∧ (∀ i df e, i < fetches.length → fetches.getD i none = some df →
      ¬df.isEmpty → compute df = .error e →
      (processBatch compute fetches).getD i .skipped = .errored e)
  ∧ (∀ i g k, k < fetches.length → k ≠ i →
      (processBatch compute (fetches.set i g)).getD k .skipped
        = (processBatch compute fetches).getD k .skipped) := by
  have point : ∀ i, i < fetches.length →
      (processBatch compute fetches).getD i .skipped
        = processTicker compute (fetches.getD i none) := by
    intro i hi
    have hx : fetches[i]? = some fetches[i] := List.getElem?_eq_getElem hi
    simp [processBatch, List.getD_eq_getElem?_getD, List.getElem?_map, hx]
  refine ⟨by simp [processBatch], point, ?_, ?_, ?_, ?_⟩
  · intro i hi hnone
    rw [point i hi, hnone]
    rfl
  · intro i df hi hdf hempty
    rw [point i hi, hdf]
    simp [processTicker, hempty]
  · intro i df e hi hdf hne herr
    rw [point i hi, hdf]
    simp [processTicker, hne, herr]
  · intro i g k hk hne
    simp only [processBatch, List.getD_eq_getElem?_getD, List.map_set]
    rw [List.getElem?_set_ne (fun h => hne h.symm)]

/-! ## Claims about the indicator pipeline -/

/-- Claim C2 (amended): the RSI computation never raises a division
error — a zero 14-window loss average yields 100 whenever the gain
average is nonzero (for a flat window, both averages zero, the RSI is
`nan` rather than 100); in particular a monotonically increasing
series has RSI 100 at every index from the filled window on, and a
monotonically decreasing series has RSI 0 there. -/
theorem rsi_zero_loss (xs : List ℚ) (i : ℕ) :
    (13 ≤ i → lossAvg xs i = .fin 0 → gainAvg xs i ≠ .fin 0 → rsiAt xs i = .fin 100)
  ∧ ((∀ j, j + 1 < xs.length → price xs j < price xs (j + 1)) →
      13 ≤ i → i < xs.length → rsiAt xs i = .fin 100)
  ∧ ((∀ j, j + 1 < xs.length → price xs (j + 1) < price xs j) →
      13 ≤ i → i < xs.length → rsiAt xs i = .fin 0) := by
  refine ⟨?_, ?_, ?_⟩
  · intro h13 hL hG
    have h14 : 14 ≤ i + 1 := by omega
    have hLsum : winSum (lossTerm xs) 14 i = 0 := by
      simp only [lossAvg, rollMean, if_pos h14, FV.fin.injEq] at hL
      rcases div_eq_zero_iff.mp hL with h | h
      · exact h
      · norm_num at h
    have hGsum : winSum (gainTerm xs) 14 i ≠ 0 := by
      intro h0
      apply hG
      simp only [gainAvg, rollMean, if_pos h14, h0, zero_div]
    rw [rsiAt_of_sums xs i h13, if_pos hLsum, if_neg hGsum]
  · intro hmono h13 hlen
    have hLsum : winSum (lossTerm xs) 14 i = 0 :=
      Finset.sum_eq_zero fun j hj => by
        have hj14 := Finset.mem_range.mp hj
        exact lossTerm_inc xs hmono _ (by omega)
    have hGpos : 0 < winSum (gainTerm xs) 14 i := by
      refine Finset.sum_pos' (fun j _ => gainTerm_nonneg xs _)
        ⟨13, Finset.mem_range.mpr (by norm_num), ?_⟩
      have hip : i + 1 - 14 + 13 = i := by omega
      rw [hip]
      exact gainTerm_inc_pos xs hmono i (by omega) hlen
    rw [rsiAt_of_sums xs i h13, if_pos hLsum, if_neg (ne_of_gt hGpos)]
  · intro hmono h13 hlen
    have hGsum : winSum (gainTerm xs) 14 i = 0 :=
      Finset.sum_eq_zero fun j hj => by
        have hj14 := Finset.mem_range.mp hj
        exact gainTerm_dec xs hmono _ (by omega)
    have hLpos : 0 < winSum (lossTerm xs) 14 i := by
      refine Finset.sum_pos' (fun j _ => lossTerm_nonneg xs _)
        ⟨13, Finset.mem_range.mpr (by norm_num), ?_⟩
      have hip : i + 1 - 14 + 13 = i := by omega
      rw [hip]
      exact lossTerm_dec_pos xs hmono i (by omega) hlen
    rw [rsiAt_of_sums xs i h13, if_neg (ne_of_gt hLpos), hGsum]
    norm_num

/-- Counterexample to claim C2 as stated: on a constant 15-point
series the trailing 14-window loss average is zero at the last index,
yet the RSI there is `nan` (the gain average is zero too), not 100. -/
theorem rsi_zero_loss_cex :
    lossAvg (List.replicate 15 (7:ℚ)) 14 = .fin 0
  ∧ rsiAt (List.replicate 15 (7:ℚ)) 14 ≠ .fin 100 := by
  have hL := winSum_loss_replicate 15 7 14 (by norm_num) (by norm_num)
  have hG := winSum_gain_replicate 15 7 14 (by norm_num) (by norm_num)
  constructor
  · norm_num [lossAvg, rollMean, hL]
  · rw [rsiAt_of_sums _ 14 (by norm_num), if_pos hL, if_pos hG]
    simp

/-- Claim C4: on a constant series of length at least 20 the
indicators are total: the RSI is `nan` (the 0/0 case, handled without
raising), the moving average is the constant, the variance and the
standard deviation are zero, and both Bollinger bands collapse onto
the constant price. -/
theorem constant_series (c : ℚ) (n i : ℕ) (hn : 20 ≤ n) (hi : i < n) :
    rsiAt (List.replicate n c) i = .nan
  ∧ (19 ≤ i → ma20At (List.replicate n c) i = some c
      ∧ var20At (List.replicate n c) i = some 0
      ∧ std20At (List.replicate n c) i = some 0
      ∧ upperAt (List.replicate n c) i = some (c : ℝ)
      ∧ lowerAt (List.replicate n c) i = some (c : ℝ)) := by
  constructor
  · rcases lt_or_le i 13 with h | h
    · exact rsiAt_lt13 _ i h
    · rw [rsiAt_of_sums _ i h, if_pos (winSum_loss_replicate n c i h hi),
        if_pos (winSum_gain_replicate n c i h hi)]
  · intro h19
    have h20 : 20 ≤ i + 1 := by omega
    have hsum : winSum (price (List.replicate n c)) 20 i = 20 * c := by
      unfold winSum
      rw [Finset.sum_congr rfl fun j hj =>
        price_replicate n c _ (by have := Finset.mem_range.mp hj; omega)]
      simp [Finset.sum_const, Finset.card_range, nsmul_eq_mul]
    have hsq : winSum (fun j => price (List.replicate n c) j ^ 2) 20 i = 20 * c ^ 2 := by
      unfold winSum
      have step : ∀ j ∈ Finset.range 20,
          (fun t => price (List.replicate n c) t ^ 2) (i + 1 - 20 + j) = c ^ 2 := by
        intro j hj
        have hj20 := Finset.mem_range.mp hj
        dsimp only
        rw [price_replicate n c _ (by omega)]
      rw [Finset.sum_congr rfl step]
      simp [Finset.sum_const, Finset.card_range, nsmul_eq_mul]
    have hone : (20:ℚ) * c / 20 = c := by ring
    have hzero : ((20:ℚ) * c ^ 2 - 20 * (20 * c / 20) ^ 2) / 19 = 0 := by ring
    have hma : ma20At (List.replicate n c) i = some c := by
      simp [ma20At, h20, hsum, hone]
    have hvar : var20At (List.replicate n c) i = some 0 := by
      simp [var20At, h20, hsum, hsq, hzero]
    have hstd : std20At (List.replicate n c) i = some 0 := by
      rw [std20At, hvar]
      simp
    refine ⟨hma, hvar, hstd, ?_, ?_⟩
    · simp [upperAt, hma, hstd]
    · simp [lowerAt, hma, hstd]

/-- Witness for C4 at the constant series of twenty sevens. -/
theorem constant_series_wit :
    rsiAt (List.replicate 20 (7:ℚ)) 19 = .nan
  ∧ (19 ≤ 19 → ma20At (List.replicate 20 (7:ℚ)) 19 = some 7
      ∧ var20At (List.replicate 20 (7:ℚ)) 19 = some 0
      ∧ std20At (List.replicate 20 (7:ℚ)) 19 = some 0
      ∧ upperAt (List.replicate 20 (7:ℚ)) 19 = some ((7:ℚ) : ℝ)
      ∧ lowerAt (List.replicate 20 (7:ℚ)) 19 = some ((7:ℚ) : ℝ)) :=
  constant_series 7 20 19 (by norm_num) (by norm_num)

/-- Claim C5: the indicators recomputed on a truncated trailing window
(the series with its first `d` points dropped) agree exactly with the
values of the full series at the corresponding indices, once the
lookback inside the truncated window fills the 14-difference RSI
window, respectively the 20-point Bollinger window — no global
pre-pass over the full series is needed. -/
theorem window_recompute (xs : List ℚ) (d j : ℕ) :
    (14 ≤ j → rsiAt (xs.drop d) j = rsiAt xs (d + j))
  ∧ (19 ≤ j → ma20At (xs.drop d) j = ma20At xs (d + j)
      ∧ var20At (xs.drop d) j = var20At xs (d + j)
      ∧ std20At (xs.drop d) j = std20At xs (d + j)
      ∧ upperAt (xs.drop d) j = upperAt xs (d + j)
      ∧ lowerAt (xs.drop d) j = lowerAt xs (d + j)) := by
  constructor
  · intro hj
    have hg : winSum (gainTerm (xs.drop d)) 14 j = winSum (gainTerm xs) 14 (d + j) := by
      unfold winSum
      refine Finset.sum_congr rfl fun k hk => ?_
      have hk14 := Finset.mem_range.mp hk
      rw [gainTerm_drop xs d _ (by omega)]
      have he : d + (j + 1 - 14 + k) = d + j + 1 - 14 + k := by omega
      rw [he]
    have hl : winSum (lossTerm (xs.drop d)) 14 j = winSum (lossTerm xs) 14 (d + j) := by
      unfold winSum
      refine Finset.sum_congr rfl fun k hk => ?_
      have hk14 := Finset.mem_range.mp hk
      rw [lossTerm_drop xs d _ (by omega)]
      have he : d + (j + 1 - 14 + k) = d + j + 1 - 14 + k := by omega
      rw [he]
    have h1 : 14 ≤ j + 1 := by omega
    have h2 : 14 ≤ d + j + 1 := by omega
    simp only [rsiAt, gainAvg, lossAvg, rollMean, if_pos h1, if_pos h2, hg, hl]
  · intro hj
    have hp : winSum (price (xs.drop d)) 20 j = winSum (price xs) 20 (d + j) := by
      unfold winSum
      refine Finset.sum_congr rfl fun k hk => ?_
      have hk20 := Finset.mem_range.mp hk
      rw [price_drop]
      have he : d + (j + 1 - 20 + k) = d + j + 1 - 20 + k := by omega
      rw [he]
    have hsq : winSum (fun t => price (xs.drop d) t ^ 2) 20 j
        = winSum (fun t => price xs t ^ 2) 20 (d + j) := by
      unfold winSum
      refine Finset.sum_congr rfl fun k hk => ?_
      have hk20 := Finset.mem_range.mp hk
      dsimp only
      rw [price_drop]
      have he : d + (j + 1 - 20 + k) = d + j + 1 - 20 + k := by omega
      rw [he]
    have h1 : 20 ≤ j + 1 := by omega
    have h2 : 20 ≤ d + j + 1 := by omega
    have hma : ma20At (xs.drop d) j = ma20At xs (d + j) := by
      simp only [ma20At, if_pos h1, if_pos h2, hp]
    have hvar : var20At (xs.drop d) j = var20At xs (d + j) := by
      simp only [var20At, if_pos h1, if_pos h2, hp, hsq]
    have hstd : std20At (xs.drop d) j = std20At xs (d + j) := by
      rw [std20At, std20At, hvar]
    refine ⟨hma, hvar, hstd, ?_, ?_⟩
    · simp only [upperAt, hma, hstd]
    · simp only [lowerAt, hma, hstd]

/-- Claim C6 (amended): the first 13 points of every series have no
defined RSI and the first 19 have no defined moving average, variance,
standard deviation or band; from the 20th point on the Bollinger
values are all defined, and from the 14th point on the RSI is defined
exactly when the 14-window gain and loss sums are not both zero (on a
flat window it stays `nan`). -/
theorem indicator_defined_ranges (xs : List ℚ) (i : ℕ) (hi : i < xs.length) :
    (i < 13 → rsiAt xs i = .nan)
  ∧ (13 ≤ i → (rsiAt xs i = .nan ↔
      winSum (gainTerm xs) 14 i = 0 ∧ winSum (lossTerm xs) 14 i = 0))
  ∧ (i < 19 → ma20At xs i = none ∧ var20At xs i = none ∧ std20At xs i = none
      ∧ upperAt xs i = none ∧ lowerAt xs i = none)
  ∧ (19 ≤ i → (ma20At xs i).isSome ∧ (var20At xs i).isSome ∧ (std20At xs i).isSome
      ∧ (upperAt xs i).isSome ∧ (lowerAt xs i).isSome) := by
  refine ⟨fun h => rsiAt_lt13 xs i h, ?_, ?_, ?_⟩
  · intro h13
    rw [rsiAt_of_sums xs i h13]
    by_cases hL : winSum (lossTerm xs) 14 i = 0 <;>
      by_cases hG : winSum (gainTerm xs) 14 i = 0 <;> simp [hL, hG]
  · intro h19
    have h20 : ¬ (20 ≤ i + 1) := by omega
    simp [ma20At, var20At, std20At, upperAt, lowerAt, h20]
  · intro h19
    have h20 : 20 ≤ i + 1 := by omega
    simp [ma20At, var20At, std20At, upperAt, lowerAt, h20]

/-- Counterexample to claim C6 as stated: the 14th point (index 13) of
a flat 14-point series is inside the series, yet its RSI is `nan`,
not a defined value. -/
theorem indicator_defined_cex :
    13 < (List.replicate 14 (5:ℚ)).length
  ∧ rsiAt (List.replicate 14 (5:ℚ)) 13 = .nan := by
  constructor
  · simp
  · rw [rsiAt_of_sums _ 13 le_rfl,
      if_pos (winSum_loss_replicate 14 5 13 le_rfl (by norm_num)),
      if_pos (winSum_gain_replicate 14 5 13 le_rfl (by norm_num))]

/-- Witness for C6 at a concrete constant 20-point series and index 19. -/
theorem indicator_defined_wit :
    (19 < 13 → rsiAt (List.replicate 20 (3:ℚ)) 19 = .nan)
  ∧ (13 ≤ 19 → (rsiAt (List.replicate 20 (3:ℚ)) 19 = .nan ↔
      winSum (gainTerm (List.replicate 20 (3:ℚ))) 14 19 = 0
      ∧ winSum (lossTerm (List.replicate 20 (3:ℚ))) 14 19 = 0))
  ∧ (19 < 19 → ma20At (List.replicate 20 (3:ℚ)) 19 = none
      ∧ var20At (List.replicate 20 (3:ℚ)) 19 = none
      ∧ std20At (List.replicate 20 (3:ℚ)) 19 = none
      ∧ upperAt (List.replicate 20 (3:ℚ)) 19 = none
      ∧ lowerAt (List.replicate 20 (3:ℚ)) 19 = none)
  ∧ (19 ≤ 19 → (ma20At (List.replicate 20 (3:ℚ)) 19).isSome
      ∧ (var20At (List.replicate 20 (3:ℚ)) 19).isSome
      ∧ (std20At (List.replicate 20 (3:ℚ)) 19).isSome
      ∧ (upperAt (List.replicate 20 (3:ℚ)) 19).isSome
      ∧ (lowerAt (List.replicate 20 (3:ℚ)) 19).isSome) :=
  indicator_defined_ranges (List.replicate 20 (3:ℚ)) 19 (by simp)

/-- Claim C9: the rolling standard deviation is the sample standard
deviation — on every full 20-window it equals the square root of the
sum of squared deviations from the window mean divided by 19 — and it
differs from the population convention (divisor 20), as the concrete
series shows. -/
theorem std20_sample_convention (xs : List ℚ) (i : ℕ) :
    (19 ≤ i →
      var20At xs i = some ((∑ k ∈ Finset.range 20,
          (price xs (i + 1 - 20 + k) - winSum (price xs) 20 i / 20) ^ 2) / 19)
      ∧ std20At xs i = some (Real.sqrt (((∑ k ∈ Finset.range 20,
          (price xs (i + 1 - 20 + k) - winSum (price xs) 20 i / 20) ^ 2) / 19 : ℚ) : ℝ)))
  ∧ std20At sampleSeries 19
      ≠ some (Real.sqrt (((∑ k ∈ Finset.range 20,
          (price sampleSeries (19 + 1 - 20 + k)
            - winSum (price sampleSeries) 20 19 / 20) ^ 2) / 20 : ℚ) : ℝ)) := by
  constructor
  · intro h19
    have h20 : 20 ≤ i + 1 := by omega
    have key : winSum (fun t => price xs t ^ 2) 20 i
          - 20 * (winSum (price xs) 20 i / 20) ^ 2
        = ∑ k ∈ Finset.range 20,
            (price xs (i + 1 - 20 + k) - winSum (price xs) 20 i / 20) ^ 2 := by
      rw [sum_sq_dev (Finset.range 20) (fun k => price xs (i + 1 - 20 + k))
        (winSum (price xs) 20 i / 20), Finset.card_range]
      simp only [winSum]
      push_cast
      ring
    have hv : var20At xs i = some ((∑ k ∈ Finset.range 20,
        (price xs (i + 1 - 20 + k) - winSum (price xs) 20 i / 20) ^ 2) / 19) := by
      rw [var20At, if_pos h20, key]
    refine ⟨hv, ?_⟩
    simp [std20At, hv]
  · have hS : winSum (price sampleSeries) 20 19 = 20 := by
      norm_num [winSum, Finset.sum_range_succ, price, sampleSeries, List.getD]
    have hsq : winSum (fun t => price sampleSeries t ^ 2) 20 19 = 400 := by
      norm_num [winSum, Finset.sum_range_succ, price, sampleSeries, List.getD]
    have hv : var20At sampleSeries 19 = some 20 := by
      rw [var20At, if_pos (by norm_num), hS, hsq]
      norm_num
    have hstd : std20At sampleSeries 19 = some (Real.sqrt 20) := by
      simp [std20At, hv]
    have hcent : (∑ k ∈ Finset.range 20,
        (price sampleSeries (19 + 1 - 20 + k)
          - winSum (price sampleSeries) 20 19 / 20) ^ 2) = (380:ℚ) := by
      rw [hS]
      norm_num [Finset.sum_range_succ, price, sampleSeries, List.getD]
    rw [hstd, hcent]
    intro hcontra
    have heq : Real.sqrt 20 = Real.sqrt (((380:ℚ) / 20 : ℚ) : ℝ) :=
      Option.some.inj hcontra
    have hc : (((380:ℚ) / 20 : ℚ) : ℝ) = (19:ℝ) := by norm_num
    rw [hc] at heq
    have hlt : Real.sqrt 19 < Real.sqrt 20 :=
      Real.sqrt_lt_sqrt (by norm_num) (by norm_num)
    rw [heq] at hlt
    exact lt_irrefl _ hlt

/-- Claim C10: when the indicators are undefined — the RSI before the
14-window fills (as on a series too short for it), the bands before
the 20-window fills — every comparison against `nan` is false, so the
classifier returns the neutral category and never a buy or sell
recommendation. -/
theorem undefined_indicators_neutral (p : ℚ) (xs : List ℚ) (i : ℕ) (hi : i < 13) :
    rsiAt xs i = .nan
  ∧ upperAt xs i = none ∧ lowerAt xs i = none
  ∧ get_advice (.fin p) .nan .nan .nan = .neutral := by
  have h20 : ¬ (20 ≤ i + 1) := by omega
  refine ⟨rsiAt_lt13 xs i hi, ?_, ?_, rfl⟩
  · simp [upperAt, ma20At, std20At, var20At, h20]
  · simp [lowerAt, ma20At, std20At, var20At, h20]

/-- Witness for C10 at a three-point series (too short for any
indicator) and a concrete price. -/
theorem undefined_indicators_neutral_wit :
    rsiAt [1, 2, 3] 2 = .nan
  ∧ upperAt [1, 2, 3] 2 = none ∧ lowerAt [1, 2, 3] 2 = none
  ∧ get_advice (.fin 5) .nan .nan .nan = .neutral :=
  undefined_indicators_neutral 5 [1, 2, 3] 2 (by norm_num)

end StockApp
